import Mathlib

/-!
Shallow embedding of rollping (src/main.rs): the fan-out ping scheduler, the
per-host runner, the prober, and the statistics aggregation.  Rust `f64`
latencies are modelled as rationals; fallible operations return `Except` or
`Option`; the network, the RNG and the task-join outcomes are explicit
parameters.
-/

namespace Rollping

/-- Location from geoip.rs (consumed read-only by the report). -/
structure Location where
  country : Option String
  country_code : Option String
  city : Option String
  latitude : Option ℚ
  longitude : Option ℚ
deriving DecidableEq

/-- HostResult from main.rs: best round-trip time in milliseconds for one
host, absent when no attempt succeeded. -/
structure HostResult where
  best_time_ms : Option ℚ
deriving DecidableEq

/-- Statistics from main.rs: the single structured output record. -/
structure Statistics where
  avg_ms : ℚ
  median_ms : ℚ
  p95_ms : ℚ
  p99_ms : ℚ
  max_ms : ℚ
  non_responsive_nodes : ℕ
  total_hosts : ℕ
  pings_per_host : ℕ
  timeout_secs : ℚ
  location : Option Location
deriving DecidableEq

/-- percentile from main.rs: nearest-rank percentile on an already sorted
list.  The Rust `round()` (half away from zero, arguments here are
non-negative) is `round` on ℚ; the `as usize` cast saturates negatives to 0,
which is `Int.toNat`. -/
def percentile (sorted_values : List ℚ) (p : ℚ) : ℚ :=
  if sorted_values.isEmpty then 0
  else
    let idx : ℤ := round (p / 100 * ((sorted_values.length - 1 : ℕ) : ℚ))
    sorted_values.getD (min idx.toNat (sorted_values.length - 1)) 0

/-- Nearest-rank percentile exactly as the specification words it: index
rounded from p/100 times (n-1), clamped to the closed interval from 0 to n-1,
then the sorted array at that index. -/
def percentileSpec (sorted_values : List ℚ) (p : ℚ) : ℚ :=
  let n := sorted_values.length
  let idx : ℤ := round (p / 100 * ((n : ℚ) - 1))
  let clamped : ℤ := max 0 (min idx ((n : ℤ) - 1))
  sorted_values.getD clamped.toNat 0

/-- calculate_statistics from main.rs.  The sort of the Rust
`sort_by(partial_cmp)` over values admitting a total order is modelled with
insertion sort by `≤`. -/
def calculate_statistics (results : List HostResult) (pings_per_host : ℕ)
    (timeout_secs : ℚ) (location : Option Location) : Statistics :=
  let successful_times : List ℚ := results.filterMap (fun r => r.best_time_ms)
  let non_responsive_nodes :=
    (results.filter (fun r => r.best_time_ms.isNone)).length
  let total_hosts := results.length
  if successful_times.isEmpty then
    { avg_ms := 0, median_ms := 0, p95_ms := 0, p99_ms := 0, max_ms := 0,
      non_responsive_nodes := non_responsive_nodes, total_hosts := total_hosts,
      pings_per_host := pings_per_host, timeout_secs := timeout_secs,
      location := location }
  else
    let sorted := List.insertionSort (· ≤ ·) successful_times
    { avg_ms := sorted.sum / (sorted.length : ℚ),
      median_ms := percentile sorted 50,
      p95_ms := percentile sorted 95,
      p99_ms := percentile sorted 99,
      max_ms := (sorted.getLast?).getD 0,
      non_responsive_nodes := non_responsive_nodes, total_hosts := total_hosts,
      pings_per_host := pings_per_host, timeout_secs := timeout_secs,
      location := location }

/-- Whitespace trim of one input line (Rust str::trim: strip leading and
trailing whitespace), modelled over the character list of the string. -/
def trimModel (s : String) : String :=
  ⟨((s.data.dropWhile Char.isWhitespace).reverse.dropWhile
      Char.isWhitespace).reverse⟩

/-- read_hosts_from_stdin from main.rs.  Standard input is a list of per-line
read outcomes (`none` is a failed line read, exactly the `line.ok()` in the
Rust `filter_map`); lines are trimmed and empties discarded.  The function
returns the `Result` the Rust signature declares. -/
def read_hosts_from_stdin (lines : List (Option String)) :
    Except String (List String) :=
  Except.ok (lines.filterMap (fun line =>
    (line.map (fun l => trimModel l)).filter (fun l => !l.isEmpty)))

/-- ping_hosts from main.rs: one task per host; joining a task either yields
its HostResult or a join error (`none`), in which case the loop only logs and
pushes nothing. -/
def collectStep (results : List HostResult) (outcome : Option HostResult) :
    List HostResult :=
  match outcome with
  | some r => results ++ [r]
  | none => results

def ping_hosts (hosts : List String) (join : String → Option HostResult) :
    List HostResult :=
  (hosts.map join).foldl collectStep []

/-- The statistics record main prints: the empty-host early return from main,
otherwise calculate_statistics. -/
def main_stats (hosts : List String) (results : List HostResult) (count : ℕ)
    (timeout_secs : ℚ) (location : Option Location) : Statistics :=
  if hosts.isEmpty then
    { avg_ms := 0, median_ms := 0, p95_ms := 0, p99_ms := 0, max_ms := 0,
      non_responsive_nodes := 0, total_hosts := 0, pings_per_host := count,
      timeout_secs := timeout_secs, location := location }
  else calculate_statistics results count timeout_secs location

/-- The run pipeline of main from stdin to the printed record: a fatal error
would surface as `Except.error` (and then no record is printed). -/
def main_run (lines : List (Option String)) (join : String → Option HostResult)
    (count : ℕ) (timeout_secs : ℚ) (location : Option Location) :
    Except String Statistics :=
  match read_hosts_from_stdin lines with
  | Except.error e => Except.error e
  | Except.ok hosts =>
      Except.ok (main_stats hosts (ping_hosts hosts join) count timeout_secs
        location)

/-- Observation of a run: the total_hosts of the printed record, if a record
is printed at all. -/
def runTotalHosts (e : Except String Statistics) : Option ℕ :=
  match e with
  | Except.ok s => some s.total_hosts
  | Except.error _ => none

/-- Environment one host's run is evaluated against: whether the surge-ping
client construction succeeds, the host's DNS resolution result (an abstract
address), and the outcome of the ICMP exchange for a given sequence number
(`none` covers both a ping error and a per-attempt timeout, which ping_host
treats identically; times in milliseconds). -/
structure HostEnv where
  clientOk : Bool
  resolve : Option ℕ
  attemptResult : ℕ → Option ℚ

/-- Trace of the externally visible probing actions of one host's run. -/
structure ProbeState where
  resolveCalls : ℕ
  probesSent : ℕ
  idsUsed : List ℕ
  seqsUsed : List ℕ
  rngIdx : ℕ
deriving DecidableEq

def ProbeState.init : ProbeState :=
  { resolveCalls := 0, probesSent := 0, idsUsed := [], seqsUsed := [],
    rngIdx := 0 }

/-- ping_once from main.rs: resolve the hostname (inside the prober, on every
call), then create a pinger with a freshly drawn random identifier and send
one echo request with the given sequence number. -/
def ping_once (env : HostEnv) (rng : ℕ → ℕ) (seq : ℕ) (s : ProbeState) :
    Option ℚ × ProbeState :=
  let s1 : ProbeState := { s with resolveCalls := s.resolveCalls + 1 }
  match env.resolve with
  | none => (none, s1)
  | some _addr =>
      let ident := rng s1.rngIdx
      (env.attemptResult seq,
        { s1 with
            rngIdx := s1.rngIdx + 1,
            probesSent := s1.probesSent + 1,
            idsUsed := s1.idsUsed ++ [ident],
            seqsUsed := s1.seqsUsed ++ [seq] })

/-- The `i as u16` truncation at the ping_once call site in ping_host. -/
def seq_of_attempt (i : ℕ) : ℕ := i % 65536

/-- One iteration of the attempt loop of ping_host: run ping_once under the
per-attempt timeout; on success fold the round trip into the running minimum
via `map_or` and bump the success count, otherwise only log. -/
def pingHostStep (env : HostEnv) (rng : ℕ → ℕ)
    (acc : (Option ℚ × ℕ) × ProbeState) (i : ℕ) :
    (Option ℚ × ℕ) × ProbeState :=
  match ping_once env rng (seq_of_attempt i) acc.2 with
  | (some rtt_ms, s') =>
      ((some (acc.1.1.elim rtt_ms (fun m => min m rtt_ms)), acc.1.2 + 1), s')
  | (none, s') => (acc.1, s')

/-- ping_host from main.rs: construct a client (failure yields an absent best
time immediately), then run `count` sequential attempts. -/
def ping_host (env : HostEnv) (rng : ℕ → ℕ) (count : ℕ) :
    HostResult × ProbeState :=
  if env.clientOk then
    let r := (List.range count).foldl (pingHostStep env rng)
      ((none, 0), ProbeState.init)
    ({ best_time_ms := r.1.1 }, r.2)
  else ({ best_time_ms := none }, ProbeState.init)

/-- The per-attempt outcomes a host's run observes, as a list. -/
def attemptOutcomes (env : HostEnv) (count : ℕ) : List (Option ℚ) :=
  if env.clientOk then
    (List.range count).map (fun i =>
      match env.resolve with
      | none => none
      | some _ => env.attemptResult (seq_of_attempt i))
  else []

/-- The running-minimum fold of ping_host, isolated and started from an
arbitrary accumulator: fold the `map_or` minimum update over a list of
attempt outcomes. -/
def foldMinFrom (acc0 : Option ℚ) (outcomes : List (Option ℚ)) : Option ℚ :=
  outcomes.foldl
    (fun acc o =>
      match o with
      | some rtt_ms => some (acc.elim rtt_ms (fun m => min m rtt_ms))
      | none => acc) acc0

/-- The running-minimum fold of ping_host started, as in the source, from
`None`. -/
def foldMin (outcomes : List (Option ℚ)) : Option ℚ :=
  foldMinFrom none outcomes

/-- Merge of two optional minima. -/
def mergeMin (a b : Option ℚ) : Option ℚ :=
  match a, b with
  | none, b => b
  | some x, none => some x
  | some x, some y => some (min x y)

/-- The round-trip durations of the succeeded attempts. -/
def successTimes (outcomes : List (Option ℚ)) : List ℚ :=
  outcomes.filterMap id

/-- The sorted vector of responsive best-times inside calculate_statistics. -/
def sortedOf (results : List HostResult) : List ℚ :=
  List.insertionSort (· ≤ ·) (results.filterMap (fun r => r.best_time_ms))

/-- Test fixture: a host whose DNS resolution fails on every attempt. -/
def envNoRes : HostEnv :=
  { clientOk := true, resolve := none, attemptResult := fun _ => none }

/-- Test fixture: a host that resolves but never receives a reply. -/
def envRes : HostEnv :=
  { clientOk := true, resolve := some 0, attemptResult := fun _ => none }

/-! ## Helper lemmas about percentile -/

theorem percentile_nil (p : ℚ) : percentile [] p = 0 := by
  simp [percentile]

theorem percentile_pos (l : List ℚ) (p : ℚ) (h : l ≠ []) :
    percentile l p =
      l.getD (min (round (p / 100 * ((l.length - 1 : ℕ) : ℚ))).toNat
        (l.length - 1)) 0 := by
  simp only [percentile]
  rw [if_neg (by simp [List.isEmpty_iff, h])]

theorem percentile_index_lt (l : List ℚ) (k : ℕ) (h : l ≠ []) :
    min k (l.length - 1) < l.length := by
  have hn : 0 < l.length := List.length_pos.mpr h
  omega

theorem sorted_getD_mono {l : List ℚ} (hs : l.Sorted (· ≤ ·)) {i j : ℕ}
    (hij : i ≤ j) (hj : j < l.length) : l.getD i 0 ≤ l.getD j 0 := by
  have hi : i < l.length := lt_of_le_of_lt hij hj
  rw [List.getD_eq_getElem _ _ hi, List.getD_eq_getElem _ _ hj]
  have := @List.Sorted.rel_get_of_le _ _ _ _ hs ⟨i, hi⟩ ⟨j, hj⟩
    (Fin.mk_le_mk.mpr hij)
  simpa [List.get_eq_getElem] using this

theorem round_monotone {p q : ℚ} (h : p ≤ q) : round p ≤ round q := by
  rw [round_eq, round_eq]
  exact Int.floor_mono (by linarith)

theorem percentile_mono (l : List ℚ) (hs : l.Sorted (· ≤ ·)) (hne : l ≠ [])
    {p q : ℚ} (hpq : p ≤ q) : percentile l p ≤ percentile l q := by
  rw [percentile_pos _ _ hne, percentile_pos _ _ hne]
  have harg : p / 100 * ((l.length - 1 : ℕ) : ℚ) ≤
      q / 100 * ((l.length - 1 : ℕ) : ℚ) := by
    have h100 : p / 100 ≤ q / 100 := by linarith
    exact mul_le_mul_of_nonneg_right h100 (Nat.cast_nonneg _)
  have hidx : (round (p / 100 * ((l.length - 1 : ℕ) : ℚ))).toNat ≤
      (round (q / 100 * ((l.length - 1 : ℕ) : ℚ))).toNat :=
    Int.toNat_le_toNat (round_monotone harg)
  exact sorted_getD_mono hs (min_le_min hidx (le_refl _))
    (percentile_index_lt _ _ hne)

theorem getLast?_getD_eq_getD (l : List ℚ) :
    (l.getLast?).getD 0 = l.getD (l.length - 1) 0 := by
  rw [List.getLast?_eq_getElem?, List.getD_eq_getElem?_getD]

theorem percentile_le_last (l : List ℚ) (hs : l.Sorted (· ≤ ·)) (hne : l ≠ [])
    (p : ℚ) : percentile l p ≤ (l.getLast?).getD 0 := by
  rw [percentile_pos _ _ hne, getLast?_getD_eq_getD]
  have hn : 0 < l.length := List.length_pos.mpr hne
  exact sorted_getD_mono hs (min_le_right _ _) (by omega)

theorem percentile_singleton (v p : ℚ) : percentile [v] p = v := by
  simp [percentile]

/-! ## Helper lemmas about calculate_statistics -/

theorem calculate_statistics_empty (results : List HostResult) (c : ℕ) (t : ℚ)
    (loc : Option Location)
    (h : results.filterMap (fun r => r.best_time_ms) = []) :
    calculate_statistics results c t loc =
      { avg_ms := 0, median_ms := 0, p95_ms := 0, p99_ms := 0, max_ms := 0,
        non_responsive_nodes :=
          (results.filter (fun r => r.best_time_ms.isNone)).length,
        total_hosts := results.length, pings_per_host := c, timeout_secs := t,
        location := loc } := by
  simp [calculate_statistics, h]

theorem calculate_statistics_pos (results : List HostResult) (c : ℕ) (t : ℚ)
    (loc : Option Location)
    (h : results.filterMap (fun r => r.best_time_ms) ≠ []) :
    calculate_statistics results c t loc =
      { avg_ms := (sortedOf results).sum / ((sortedOf results).length : ℚ),
        median_ms := percentile (sortedOf results) 50,
        p95_ms := percentile (sortedOf results) 95,
        p99_ms := percentile (sortedOf results) 99,
        max_ms := ((sortedOf results).getLast?).getD 0,
        non_responsive_nodes :=
          (results.filter (fun r => r.best_time_ms.isNone)).length,
        total_hosts := results.length, pings_per_host := c, timeout_secs := t,
        location := loc } := by
  simp only [calculate_statistics, sortedOf]
  rw [if_neg (by simp [List.isEmpty_iff, h])]

theorem sortedOf_sorted (results : List HostResult) :
    (sortedOf results).Sorted (· ≤ ·) :=
  List.sorted_insertionSort _ _

theorem sortedOf_perm (results : List HostResult) :
    (sortedOf results).Perm (results.filterMap (fun r => r.best_time_ms)) :=
  List.perm_insertionSort _ _

theorem sortedOf_ne_nil (results : List HostResult)
    (h : results.filterMap (fun r => r.best_time_ms) ≠ []) :
    sortedOf results ≠ [] := by
  intro hcon
  exact h (List.Perm.nil_eq ((hcon ▸ sortedOf_perm results))).symm

/-! ## Claim C2 -/

/-- Claim C2: on a non-empty sorted list and p in the set 50, 95, 99, the
percentile function agrees with the specification's nearest-rank rule (index
rounded from p/100 times n-1, clamped to the interval from 0 to n-1, no
interpolation); concretely it gives 40 at p95 and 30 at p50 on the list
10, 20, 30, 40. -/
theorem claim_C2 :
    (∀ (xs : List ℚ) (p : ℚ), xs ≠ [] → (p = 50 ∨ p = 95 ∨ p = 99) →
      percentile xs p = percentileSpec xs p) ∧
    percentile [10, 20, 30, 40] 95 = 40 ∧
    percentile [10, 20, 30, 40] 50 = 30 := by
  refine ⟨?_, ?_, ?_⟩
  · intro xs p hne hp
    have hn : 0 < xs.length := List.length_pos.mpr hne
    have hp0 : (0 : ℚ) ≤ p := by rcases hp with rfl | rfl | rfl <;> norm_num
    have hc : ((xs.length - 1 : ℕ) : ℚ) = (xs.length : ℚ) - 1 := by
      rw [Nat.cast_sub hn, Nat.cast_one]
    have hidx0 : 0 ≤ round (p / 100 * ((xs.length - 1 : ℕ) : ℚ)) := by
      rw [round_eq]
      apply Int.floor_nonneg.mpr
      have harg : (0 : ℚ) ≤ p / 100 * ((xs.length - 1 : ℕ) : ℚ) :=
        mul_nonneg (div_nonneg hp0 (by norm_num)) (Nat.cast_nonneg _)
      linarith
    rw [percentile_pos _ _ hne]
    simp only [percentileSpec]
    rw [← hc]
    congr 1
    omega
  · norm_num [percentile, round_eq]; rfl
  · norm_num [percentile, round_eq]; rfl

/-- Witness for C2 at a concrete input. -/
theorem claim_C2_witness :
    percentile [10, 20, 30, 40] 95 = percentileSpec [10, 20, 30, 40] 95 :=
  claim_C2.1 [10, 20, 30, 40] 95 (by decide) (Or.inr (Or.inl rfl))

/-! ## Claim C10 -/

/-- Claim C10: percentile is total and never accesses the list out of
bounds: it returns 0 on the empty list, and on a non-empty list the index
min of round(p/100 times (n-1)) and n-1 is strictly below the length, so the
access is in range. -/
theorem claim_C10 (xs : List ℚ) (p : ℚ) (hp : 0 ≤ p) :
    percentile [] p = 0 ∧
    (xs ≠ [] →
      min (round (p / 100 * ((xs.length - 1 : ℕ) : ℚ))).toNat
          (xs.length - 1) < xs.length ∧
      percentile xs p =
        xs.getD (min (round (p / 100 * ((xs.length - 1 : ℕ) : ℚ))).toNat
          (xs.length - 1)) 0) := by
  refine ⟨percentile_nil p, fun hne => ⟨percentile_index_lt _ _ hne, ?_⟩⟩
  exact percentile_pos _ _ hne

/-- Witness for C10 at a concrete input. -/
theorem claim_C10_witness :
    min (round ((50 : ℚ) / 100 * ((([3, 7] : List ℚ).length - 1 : ℕ) : ℚ))).toNat
        (([3, 7] : List ℚ).length - 1) < ([3, 7] : List ℚ).length ∧
    percentile [3, 7] 50 =
      ([3, 7] : List ℚ).getD
        (min (round ((50 : ℚ) / 100 * ((([3, 7] : List ℚ).length - 1 : ℕ) : ℚ))).toNat
          (([3, 7] : List ℚ).length - 1)) 0 :=
  (claim_C10 [3, 7] 50 (by norm_num)).2 (by decide)

/-! ## Claim C3 -/

/-- Claim C3: when no host has a present best time (including the empty
result list coming from empty standard input), calculate_statistics returns
all five latency fields exactly 0, non_responsive_nodes equal to
total_hosts, and the empty-input run still yields one structured record. -/
theorem claim_C3 (results : List HostResult) (c : ℕ) (t : ℚ)
    (loc : Option Location) (join : String → Option HostResult)
    (h : ∀ r ∈ results, r.best_time_ms = none) :
    (calculate_statistics results c t loc).avg_ms = 0 ∧
    (calculate_statistics results c t loc).median_ms = 0 ∧
    (calculate_statistics results c t loc).p95_ms = 0 ∧
    (calculate_statistics results c t loc).p99_ms = 0 ∧
    (calculate_statistics results c t loc).max_ms = 0 ∧
    (calculate_statistics results c t loc).non_responsive_nodes =
      (calculate_statistics results c t loc).total_hosts ∧
    (calculate_statistics results c t loc).total_hosts = results.length ∧
    main_run [] join c t loc =
      Except.ok
        { avg_ms := 0, median_ms := 0, p95_ms := 0, p99_ms := 0, max_ms := 0,
          non_responsive_nodes := 0, total_hosts := 0, pings_per_host := c,
          timeout_secs := t, location := loc } := by
  have hfm : results.filterMap (fun r => r.best_time_ms) = [] :=
    List.filterMap_eq_nil_iff.mpr h
  have hfil : results.filter (fun r => r.best_time_ms.isNone) = results :=
    List.filter_eq_self.mpr (fun a ha => by simp [h a ha])
  rw [calculate_statistics_empty results c t loc hfm]
  refine ⟨rfl, rfl, rfl, rfl, rfl, by simp [hfil], rfl, rfl⟩

/-- Witness for C3 at a concrete input. -/
theorem claim_C3_witness :
    (calculate_statistics [{ best_time_ms := none }] 3 2 none).avg_ms = 0 ∧
    (calculate_statistics [{ best_time_ms := none }] 3 2 none).median_ms = 0 ∧
    (calculate_statistics [{ best_time_ms := none }] 3 2 none).p95_ms = 0 ∧
    (calculate_statistics [{ best_time_ms := none }] 3 2 none).p99_ms = 0 ∧
    (calculate_statistics [{ best_time_ms := none }] 3 2 none).max_ms = 0 ∧
    (calculate_statistics [{ best_time_ms := none }] 3 2 none).non_responsive_nodes =
      (calculate_statistics [{ best_time_ms := none }] 3 2 none).total_hosts ∧
    (calculate_statistics [{ best_time_ms := none }] 3 2 none).total_hosts =
      [({ best_time_ms := none } : HostResult)].length ∧
    main_run [] (fun _ => none) 3 2 none =
      Except.ok
        { avg_ms := 0, median_ms := 0, p95_ms := 0, p99_ms := 0, max_ms := 0,
          non_responsive_nodes := 0, total_hosts := 0, pings_per_host := 3,
          timeout_secs := 2, location := none } :=
  claim_C3 [{ best_time_ms := none }] 3 2 none (fun _ => none) (by decide)

/-! ## Claim C5 -/

/-- Claim C5: over a non-empty responsive set the computed statistics satisfy
median below p95 below p99 below max, the computation depends only on the
multiset of host results (permutation invariance, hence determinism), and
with exactly one responsive value all four of those fields equal it. -/
theorem claim_C5 (results : List HostResult) (c : ℕ) (t : ℚ)
    (loc : Option Location) :
    (results.filterMap (fun r => r.best_time_ms) ≠ [] →
      (calculate_statistics results c t loc).median_ms ≤
        (calculate_statistics results c t loc).p95_ms ∧
      (calculate_statistics results c t loc).p95_ms ≤
        (calculate_statistics results c t loc).p99_ms ∧
      (calculate_statistics results c t loc).p99_ms ≤
        (calculate_statistics results c t loc).max_ms) ∧
    (∀ results' : List HostResult, results.Perm results' →
      calculate_statistics results c t loc =
        calculate_statistics results' c t loc) ∧
    (∀ v : ℚ, results.filterMap (fun r => r.best_time_ms) = [v] →
      (calculate_statistics results c t loc).median_ms = v ∧
      (calculate_statistics results c t loc).p95_ms = v ∧
      (calculate_statistics results c t loc).p99_ms = v ∧
      (calculate_statistics results c t loc).max_ms = v) := by
  refine ⟨?_, ?_, ?_⟩
  · intro h
    have hs := sortedOf_sorted results
    have hne := sortedOf_ne_nil results h
    rw [calculate_statistics_pos _ _ _ _ h]
    exact ⟨percentile_mono _ hs hne (by norm_num),
      percentile_mono _ hs hne (by norm_num),
      percentile_le_last _ hs hne 99⟩
  · intro results' hperm
    have hfm := List.Perm.filterMap (fun r => r.best_time_ms) hperm
    have hsorted_eq : sortedOf results = sortedOf results' :=
      List.eq_of_perm_of_sorted
        ((sortedOf_perm results).trans
          (hfm.trans (sortedOf_perm results').symm))
        (sortedOf_sorted results) (sortedOf_sorted results')
    have hlen := List.Perm.length_eq hperm
    have hflen :=
      List.Perm.length_eq (List.Perm.filter
        (fun r => r.best_time_ms.isNone) hperm)
    by_cases hE : results.filterMap (fun r => r.best_time_ms) = []
    · have hE' : results'.filterMap (fun r => r.best_time_ms) = [] :=
        (List.Perm.nil_eq (hE ▸ hfm)).symm
      rw [calculate_statistics_empty _ _ _ _ hE,
        calculate_statistics_empty _ _ _ _ hE']
      simp [hlen, hflen]
    · have hE' : results'.filterMap (fun r => r.best_time_ms) ≠ [] := by
        intro hcon
        exact hE (List.Perm.nil_eq (hcon ▸ hfm.symm)).symm
      rw [calculate_statistics_pos _ _ _ _ hE,
        calculate_statistics_pos _ _ _ _ hE']
      simp [hsorted_eq, hlen, hflen]
  · intro v hv
    have h : results.filterMap (fun r => r.best_time_ms) ≠ [] := by
      simp [hv]
    have hs : sortedOf results = [v] := by
      have hp := sortedOf_perm results
      rw [hv] at hp
      exact List.perm_singleton.mp hp
    rw [calculate_statistics_pos _ _ _ _ h]
    simp [hs, percentile_singleton]

/-- Witness for C5 at concrete inputs. -/
theorem claim_C5_witness :
    ((calculate_statistics [{ best_time_ms := some 5 },
        { best_time_ms := some 7 }] 3 2 none).median_ms ≤
      (calculate_statistics [{ best_time_ms := some 5 },
        { best_time_ms := some 7 }] 3 2 none).p95_ms ∧
     (calculate_statistics [{ best_time_ms := some 5 },
        { best_time_ms := some 7 }] 3 2 none).p95_ms ≤
      (calculate_statistics [{ best_time_ms := some 5 },
        { best_time_ms := some 7 }] 3 2 none).p99_ms ∧
     (calculate_statistics [{ best_time_ms := some 5 },
        { best_time_ms := some 7 }] 3 2 none).p99_ms ≤
      (calculate_statistics [{ best_time_ms := some 5 },
        { best_time_ms := some 7 }] 3 2 none).max_ms) ∧
    calculate_statistics [{ best_time_ms := some 5 },
        { best_time_ms := some 7 }] 3 2 none =
      calculate_statistics [{ best_time_ms := some 7 },
        { best_time_ms := some 5 }] 3 2 none ∧
    ((calculate_statistics [{ best_time_ms := some 4 }] 3 2 none).median_ms = 4 ∧
     (calculate_statistics [{ best_time_ms := some 4 }] 3 2 none).p95_ms = 4 ∧
     (calculate_statistics [{ best_time_ms := some 4 }] 3 2 none).p99_ms = 4 ∧
     (calculate_statistics [{ best_time_ms := some 4 }] 3 2 none).max_ms = 4) :=
  ⟨(claim_C5 [{ best_time_ms := some 5 }, { best_time_ms := some 7 }]
      3 2 none).1 (by decide),
   (claim_C5 [{ best_time_ms := some 5 }, { best_time_ms := some 7 }]
      3 2 none).2.1 _ (by decide),
   (claim_C5 [{ best_time_ms := some 4 }] 3 2 none).2.2 4 (by decide)⟩

/-! ## Helper lemmas about the minimum fold -/

theorem foldMinFrom_cons_none (acc : Option ℚ) (t : List (Option ℚ)) :
    foldMinFrom acc (none :: t) = foldMinFrom acc t := by
  simp [foldMinFrom]

theorem foldMinFrom_cons_some (acc : Option ℚ) (r : ℚ) (t : List (Option ℚ)) :
    foldMinFrom acc (some r :: t) = foldMinFrom (mergeMin acc (some r)) t := by
  cases acc <;> simp [foldMinFrom, mergeMin]

theorem foldMinFrom_nil (acc : Option ℚ) : foldMinFrom acc [] = acc := rfl

theorem mergeMin_none_right (a : Option ℚ) : mergeMin a none = a := by
  cases a <;> rfl

theorem mergeMin_right_comm (a b c : Option ℚ) :
    mergeMin (mergeMin a b) c = mergeMin (mergeMin a c) b := by
  cases a <;> cases b <;> cases c <;>
    simp [mergeMin, min_comm, min_assoc, min_left_comm]

theorem foldMinFrom_eq_foldl_mergeMin (l : List (Option ℚ)) :
    ∀ acc, foldMinFrom acc l = l.foldl mergeMin acc := by
  induction l with
  | nil => intro acc; rfl
  | cons o t ih =>
    intro acc
    cases o with
    | none => rw [foldMinFrom_cons_none, List.foldl_cons, mergeMin_none_right,
        ih acc]
    | some r => rw [foldMinFrom_cons_some, List.foldl_cons, ih]

theorem foldl_mergeMin_perm {l₁ l₂ : List (Option ℚ)} (h : l₁.Perm l₂) :
    ∀ acc, l₁.foldl mergeMin acc = l₂.foldl mergeMin acc := by
  induction h with
  | nil => intro acc; rfl
  | cons x _ ih => intro acc; simpa using ih (mergeMin acc x)
  | swap x y l => intro acc; simp [mergeMin_right_comm]
  | trans _ _ ih₁ ih₂ => intro acc; rw [ih₁ acc, ih₂ acc]

theorem foldl_mergeMin_filterMap (l : List (Option ℚ)) :
    ∀ acc, l.foldl mergeMin acc = ((l.filterMap id).map some).foldl mergeMin acc := by
  induction l with
  | nil => intro acc; rfl
  | cons o t ih =>
    intro acc
    cases o with
    | none => simpa [mergeMin_none_right] using ih acc
    | some x => simpa using ih (mergeMin acc (some x))

theorem foldl_mergeMin_map_some (ts : List ℚ) :
    ∀ a : ℚ, (ts.map some).foldl mergeMin (some a) = some (ts.foldl min a) := by
  induction ts with
  | nil => intro a; rfl
  | cons b t ih => intro a; simpa [mergeMin] using ih (min a b)

theorem foldMin_eq_minOfSuccesses (l : List (Option ℚ)) :
    foldMin l = (successTimes l).min? := by
  rw [foldMin, foldMinFrom_eq_foldl_mergeMin, foldl_mergeMin_filterMap]
  show ((successTimes l).map some).foldl mergeMin none = (successTimes l).min?
  cases successTimes l with
  | nil => rfl
  | cons v ts => simpa [List.min?] using foldl_mergeMin_map_some ts v

theorem foldMin_perm_invariant {l l' : List (Option ℚ)}
    (h : (successTimes l).Perm (successTimes l')) : foldMin l = foldMin l' := by
  rw [foldMin, foldMin, foldMinFrom_eq_foldl_mergeMin,
    foldMinFrom_eq_foldl_mergeMin, foldl_mergeMin_filterMap,
    foldl_mergeMin_filterMap l']
  exact foldl_mergeMin_perm (List.Perm.map some h) none

/-! ## Helper lemmas about ping_host -/

theorem elim_min_eq_mergeMin (mt : Option ℚ) (rtt : ℚ) :
    some (mt.elim rtt (fun m => min m rtt)) = mergeMin mt (some rtt) := by
  cases mt <;> rfl

theorem pingHost_foldl_resolve_none (env : HostEnv) (rng : ℕ → ℕ)
    (henv : env.resolve = none) (l : List ℕ) :
    ∀ (mt : Option ℚ) (sc : ℕ) (s : ProbeState),
      l.foldl (pingHostStep env rng) ((mt, sc), s) =
        ((mt, sc), { s with resolveCalls := s.resolveCalls + l.length }) := by
  induction l with
  | nil => intro mt sc s; simp
  | cons i t ih =>
    intro mt sc s
    rw [List.foldl_cons]
    show (t.foldl (pingHostStep env rng)
      (pingHostStep env rng ((mt, sc), s) i)) = _
    simp only [pingHostStep, ping_once, henv]
    rw [ih]
    have h1 : s.resolveCalls + 1 + t.length = s.resolveCalls + (t.length + 1) := by
      omega
    simp [h1]

theorem pingHost_foldl_resolve_some (env : HostEnv) (rng : ℕ → ℕ) (a : ℕ)
    (henv : env.resolve = some a) (l : List ℕ) :
    ∀ (mt : Option ℚ) (sc : ℕ) (s : ProbeState),
      l.foldl (pingHostStep env rng) ((mt, sc), s) =
        ((foldMinFrom mt (l.map (fun i => env.attemptResult (seq_of_attempt i))),
          sc + ((l.map (fun i =>
            env.attemptResult (seq_of_attempt i))).filterMap id).length),
          { resolveCalls := s.resolveCalls + l.length,
            probesSent := s.probesSent + l.length,
            idsUsed := s.idsUsed ++ (List.range' s.rngIdx l.length).map rng,
            seqsUsed := s.seqsUsed ++ l.map seq_of_attempt,
            rngIdx := s.rngIdx + l.length }) := by
  induction l with
  | nil =>
    intro mt sc s
    simp [foldMinFrom_nil]
  | cons i t ih =>
    intro mt sc s
    rw [List.foldl_cons]
    show (t.foldl (pingHostStep env rng)
      (pingHostStep env rng ((mt, sc), s) i)) = _
    simp only [pingHostStep, ping_once, henv]
    cases hr : env.attemptResult (seq_of_attempt i) with
    | none =>
      rw [ih]
      simp only [List.map_cons, hr, foldMinFrom_cons_none,
        List.filterMap_cons, List.length_cons, List.range'_succ,
        List.map_cons]
      refine congrArg₂ _ (congrArg₂ _ rfl (by simp [List.filterMap_cons])) ?_
      simp only [ProbeState.mk.injEq]
      refine ⟨by omega, by omega, ?_, ?_, by omega⟩
      · simp [List.append_assoc]
      · simp [List.append_assoc]
    | some rtt =>
      rw [ih]
      simp only [List.map_cons, hr, foldMinFrom_cons_some,
        List.filterMap_cons, List.length_cons, List.range'_succ,
        List.map_cons, elim_min_eq_mergeMin]
      refine congrArg₂ _ (congrArg₂ _ rfl
        (by simp [List.filterMap_cons]; omega)) ?_
      simp only [ProbeState.mk.injEq]
      refine ⟨by omega, by omega, ?_, ?_, by omega⟩
      · simp [List.append_assoc]
      · simp [List.append_assoc]

theorem ping_host_resolve_none (env : HostEnv) (rng : ℕ → ℕ) (count : ℕ)
    (hc : env.clientOk = true) (hr : env.resolve = none) :
    ping_host env rng count =
      ({ best_time_ms := none },
        { resolveCalls := count, probesSent := 0, idsUsed := [],
          seqsUsed := [], rngIdx := 0 }) := by
  simp only [ping_host, hc, if_true]
  rw [pingHost_foldl_resolve_none env rng hr]
  simp [ProbeState.init]

theorem ping_host_resolve_some (env : HostEnv) (rng : ℕ → ℕ) (count : ℕ)
    (a : ℕ) (hc : env.clientOk = true) (henv : env.resolve = some a) :
    ping_host env rng count =
      ({ best_time_ms := foldMin (attemptOutcomes env count) },
        { resolveCalls := count, probesSent := count,
          idsUsed := (List.range count).map rng,
          seqsUsed := (List.range count).map seq_of_attempt,
          rngIdx := count }) := by
  simp only [ping_host, hc, if_true]
  rw [pingHost_foldl_resolve_some env rng a henv]
  simp only [ProbeState.init, foldMin, attemptOutcomes, hc, henv, if_true,
    List.range_eq_range']
  simp [List.length_range']

theorem foldMin_all_none (l : List (Option ℚ)) (h : ∀ o ∈ l, o = none) :
    foldMin l = none := by
  rw [foldMin_eq_minOfSuccesses]
  have hs : successTimes l = [] := by
    simp only [successTimes]
    exact List.filterMap_eq_nil_iff.mpr (by simpa using h)
  rw [hs]
  rfl

/-! ## Claim C4 -/

/-- Claim C4: the best time of a host equals the minimum over the round-trip
durations of its succeeded attempts (absent when none succeeded), and the
minimum fold is invariant under any permutation of the successful attempt
durations. -/
theorem claim_C4 (env : HostEnv) (rng : ℕ → ℕ) (count : ℕ)
    (outcomes outcomes' : List (Option ℚ)) :
    (ping_host env rng count).1.best_time_ms =
      foldMin (attemptOutcomes env count) ∧
    foldMin (attemptOutcomes env count) =
      (successTimes (attemptOutcomes env count)).min? ∧
    ((successTimes outcomes).Perm (successTimes outcomes') →
      foldMin outcomes = foldMin outcomes') := by
  refine ⟨?_, foldMin_eq_minOfSuccesses _, foldMin_perm_invariant⟩
  cases hc : env.clientOk with
  | false => simp [ping_host, hc, attemptOutcomes, foldMin, foldMinFrom]
  | true =>
    cases henv : env.resolve with
    | none =>
      rw [ping_host_resolve_none env rng count hc henv]
      exact (foldMin_all_none _ (by simp [attemptOutcomes, hc, henv])).symm
    | some a =>
      rw [ping_host_resolve_some env rng count a hc henv]

/-- Witness for C4 at concrete inputs. -/
theorem claim_C4_witness :
    (ping_host envRes (fun k => k) 2).1.best_time_ms =
      foldMin (attemptOutcomes envRes 2) ∧
    foldMin (attemptOutcomes envRes 2) =
      (successTimes (attemptOutcomes envRes 2)).min? ∧
    foldMin [some 3, none] = foldMin [none, some 3] :=
  let h := claim_C4 envRes (fun k => k) 2 [some 3, none] [none, some 3]
  ⟨h.1, h.2.1, h.2.2 (by decide)⟩

/-! ## Claim C6 -/

/-- Claim C6 counterexample: for a host whose resolution fails and count 3,
the run performs the resolution three times (once inside every attempt), not
once, while the claim says resolution happens once before any attempt. -/
theorem claim_C6_counterexample :
    (ping_host envNoRes (fun k => k) 3).2.resolveCalls = 3 ∧ (3 : ℕ) ≠ 1 ∧
    (ping_host envNoRes (fun k => k) 3).1.best_time_ms = none :=
  ⟨rfl, by decide, rfl⟩

/-- Claim C6 as amended: the prober (ping_once) performs the DNS resolution
itself on every call; a host whose hostname fails to resolve still runs all
count loop iterations, each performing one resolution, sends no probe, draws
no identifier, and ends with an absent best time. -/
theorem claim_C6_amended (env : HostEnv) (rng : ℕ → ℕ) (count : ℕ)
    (s : ProbeState) (sq : ℕ) (hc : env.clientOk = true)
    (hr : env.resolve = none) :
    (ping_once env rng sq s).2.resolveCalls = s.resolveCalls + 1 ∧
    (ping_host env rng count).1.best_time_ms = none ∧
    (ping_host env rng count).2.resolveCalls = count ∧
    (ping_host env rng count).2.probesSent = 0 ∧
    (ping_host env rng count).2.idsUsed = [] := by
  rw [ping_host_resolve_none env rng count hc hr]
  exact ⟨by simp [ping_once, hr], rfl, rfl, rfl, rfl⟩

/-- Witness for the amended C6 at a concrete input. -/
theorem claim_C6_witness :
    (ping_once envNoRes (fun k => k) 0 ProbeState.init).2.resolveCalls =
      ProbeState.init.resolveCalls + 1 ∧
    (ping_host envNoRes (fun k => k) 3).1.best_time_ms = none ∧
    (ping_host envNoRes (fun k => k) 3).2.resolveCalls = 3 ∧
    (ping_host envNoRes (fun k => k) 3).2.probesSent = 0 ∧
    (ping_host envNoRes (fun k => k) 3).2.idsUsed = [] :=
  claim_C6_amended envNoRes (fun k => k) 3 ProbeState.init 0 rfl rfl

/-! ## Claim C8 -/

/-- Claim C8 counterexample: with the random stream 0, 1, the two attempts of
one host get the identifiers 0 and 1, which differ — the identifier is not a
single per-host value reused across that host's attempts. -/
theorem claim_C8_counterexample :
    (ping_host envRes (fun k => k) 2).2.idsUsed = [0, 1] ∧ (0 : ℕ) ≠ 1 :=
  ⟨rfl, by decide⟩

/-- Claim C8 as amended: the ICMP correlation identifier is drawn freshly
from the random stream on every attempt inside ping_once (the i-th attempt
gets the i-th draw), re-randomized per attempt rather than chosen once per
host runner, while the sequence number is the attempt index truncated to 16
bits. -/
theorem claim_C8_amended (env : HostEnv) (rng : ℕ → ℕ) (count a : ℕ)
    (hc : env.clientOk = true) (henv : env.resolve = some a) :
    (ping_host env rng count).2.idsUsed = (List.range count).map rng ∧
    (ping_host env rng count).2.seqsUsed =
      (List.range count).map seq_of_attempt := by
  rw [ping_host_resolve_some env rng count a hc henv]
  exact ⟨rfl, rfl⟩

/-- Witness for the amended C8 at a concrete input. -/
theorem claim_C8_witness :
    (ping_host envRes (fun k => k) 2).2.idsUsed =
      (List.range 2).map (fun k => k) ∧
    (ping_host envRes (fun k => k) 2).2.seqsUsed =
      (List.range 2).map seq_of_attempt :=
  claim_C8_amended envRes (fun k => k) 2 0 rfl rfl

/-! ## Claim C9 -/

/-- Claim C9 counterexample: sequence numbers are the attempt index modulo
two to the 16, so in a run with count 65537 the attempts 0 and 65536 receive
the same sequence number — uniqueness does not hold for all count. -/
theorem claim_C9_counterexample :
    seq_of_attempt 65536 = seq_of_attempt 0 ∧ (65536 : ℕ) ≠ 0 ∧
    ¬ ((ping_host envRes (fun k => k) 65537).2.seqsUsed).Nodup := by
  refine ⟨rfl, by decide, ?_⟩
  intro hnodup
  simp only [ping_host_resolve_some envRes (fun k => k) 65537 0 rfl rfl]
    at hnodup
  have h01 := List.inj_on_of_nodup_map hnodup
    (List.mem_range.mpr (by omega)) (List.mem_range.mpr (by omega))
    (show seq_of_attempt 0 = seq_of_attempt 65536 by rfl)
  omega

/-- Claim C9 as amended: the 16-bit sequence numbers of one host's attempts
are pairwise distinct whenever count is at most 65536; beyond that they wrap
modulo two to the 16. -/
theorem claim_C9_amended (env : HostEnv) (rng : ℕ → ℕ) (count a : ℕ)
    (hc : env.clientOk = true) (henv : env.resolve = some a)
    (hcount : count ≤ 65536) :
    ((ping_host env rng count).2.seqsUsed).Nodup := by
  rw [ping_host_resolve_some env rng count a hc henv]
  show ((List.range count).map seq_of_attempt).Nodup
  refine List.Nodup.map_on ?_ (List.nodup_range count)
  intro x hx y hy hxy
  have hx' := List.mem_range.mp hx
  have hy' := List.mem_range.mp hy
  simp only [seq_of_attempt] at hxy
  omega

/-- Witness for the amended C9 at a concrete input. -/
theorem claim_C9_witness :
    ((ping_host envRes (fun k => k) 3).2.seqsUsed).Nodup :=
  claim_C9_amended envRes (fun k => k) 3 0 rfl rfl (by omega)

/-! ## Claim C1 -/

theorem foldl_collectStep (outcomes : List (Option HostResult)) :
    ∀ acc : List HostResult,
      outcomes.foldl collectStep acc = acc ++ outcomes.filterMap id := by
  induction outcomes with
  | nil => intro acc; simp
  | cons o t ih =>
    intro acc
    cases o with
    | none => simpa [collectStep] using ih acc
    | some r => simp [collectStep, ih (acc ++ [r])]

theorem ping_hosts_eq_filterMap (hosts : List String)
    (join : String → Option HostResult) :
    ping_hosts hosts join = hosts.filterMap join := by
  rw [ping_hosts, foldl_collectStep]
  simp [List.filterMap_map]

theorem length_filterMap_all_some (hosts : List String)
    (join : String → Option HostResult)
    (hall : ∀ h ∈ hosts, (join h).isSome = true) :
    (hosts.filterMap join).length = hosts.length := by
  induction hosts with
  | nil => rfl
  | cons h t ih =>
    have hh := hall h (List.mem_cons_self h t)
    cases hj : join h with
    | none => rw [hj] at hh; simp at hh
    | some r =>
      simp [List.filterMap_cons, hj,
        ih (fun x hx => hall x (List.mem_cons_of_mem h hx))]

/-- Claim C1 counterexample: a single host whose task join fails is dropped
from the collected results entirely — the scheduler returns an empty list
rather than one non-responsive HostResult for that host. -/
theorem claim_C1_counterexample :
    ping_hosts ["a"] (fun _ => none) = [] ∧
    (ping_hosts ["a"] (fun _ => none)).length ≠
      (["a"] : List String).length :=
  ⟨rfl, by decide⟩

/-- Claim C1 as amended: ping_hosts returns exactly the results of the tasks
that joined normally, in order (hosts whose task join-errors are logged and
omitted, without aborting the batch); in particular when every task joins
normally there is exactly one HostResult per input host. -/
theorem claim_C1_amended (hosts : List String)
    (join : String → Option HostResult) :
    ping_hosts hosts join = hosts.filterMap join ∧
    ((∀ h ∈ hosts, (join h).isSome = true) →
      (ping_hosts hosts join).length = hosts.length) := by
  refine ⟨ping_hosts_eq_filterMap hosts join, fun hall => ?_⟩
  rw [ping_hosts_eq_filterMap hosts join]
  exact length_filterMap_all_some hosts join hall

/-- Witness for the amended C1 at a concrete input. -/
theorem claim_C1_witness :
    ping_hosts ["a", "b"] (fun _ => some { best_time_ms := none }) =
      (["a", "b"] : List String).filterMap
        (fun _ => some { best_time_ms := none }) ∧
    (ping_hosts ["a", "b"] (fun _ => some { best_time_ms := none })).length =
      (["a", "b"] : List String).length :=
  let h := claim_C1_amended ["a", "b"] (fun _ => some { best_time_ms := none })
  ⟨h.1, h.2 (by decide)⟩

/-! ## Claim C7 -/

/-- Claim C7 counterexample: a run whose standard input contains an
unreadable line still produces a structured record and succeeds — here three
lines with one read failure yield a normal report over the two readable
hosts, instead of the fatal no-report exit the claim requires. -/
theorem claim_C7_counterexample :
    (main_run [some " h1 ", none, some "h2"]
      (fun _ => some { best_time_ms := none }) 3 2 none).isOk = true ∧
    runTotalHosts (main_run [some " h1 ", none, some "h2"]
      (fun _ => some { best_time_ms := none }) 3 2 none) = some 2 := by
  exact ⟨rfl, by decide⟩

/-- Claim C7 as amended: read errors on individual stdin lines are silently
discarded (the line is skipped and the host list is simply shorter);
read_hosts_from_stdin always succeeds and the run always goes on to produce
its one structured record. -/
theorem claim_C7_amended (lines pre post : List (Option String))
    (join : String → Option HostResult) (c : ℕ) (t : ℚ)
    (loc : Option Location) :
    (read_hosts_from_stdin lines).isOk = true ∧
    read_hosts_from_stdin (pre ++ none :: post) =
      read_hosts_from_stdin (pre ++ post) ∧
    (main_run lines join c t loc).isOk = true := by
  refine ⟨rfl, ?_, ?_⟩
  · simp [read_hosts_from_stdin, List.filterMap_append, List.filterMap_cons]
  · simp [main_run, read_hosts_from_stdin, Except.isOk, Except.toBool]

end Rollping
